import Mathlib

/-!
Verification of the content-filtering core found in `filters.py`:
duplicate detection over a frequency LRU cache (`put_in_cache`,
`duplicate_test`), the structural text filter (`textfilter`,
`text_chars_test`, `RE_FILTER`), the language gate (`language_filter`)
and content fingerprinting (`content_fingerprint`).

Machine-level conventions: Python strings are `String`; character
classifications and case mapping are carried out on Unicode code points
(`Char.toNat`); Python `int` is `Int` (counts) or `Nat` (lengths, code
points). The whitespace set of `str.isspace` and the line-boundary set of
`str.splitlines` are fixed, fully enumerated tables and are embedded
directly. The Unicode tables behind the regex word class `\w`,
`str.lower` and the `re.IGNORECASE` literal match are data of the
interpreter, external to the repository's sources; they are bound in a
`PyTextSem` parameter, the theorems that touch them quantify over it
(they hold in particular at the interpreter's actual tables), and the
concrete evaluations and witnesses use the ASCII restriction `asciiSem`
on all-ASCII inputs, on which the restriction is exact.
-/

namespace Filters

/-- Modelled from the spec: the frequency LRU cache (class `LRUCache` of
`lru.py`, which is not among the provided source files; `filters.py` only
imports it). `entries` is ordered most recently used first; the value
stored under a key is its observation count; `maxsize` is the fixed
capacity. -/
structure LRUCache where
  maxsize : Nat
  entries : List (String × Int)
deriving Repr, DecidableEq

/-- Modelled from the spec: `get` returns the stored count, or `-1` on a
miss (the source comment in `filters.py` documents "non-existent key will
return -1"); a hit marks the key most recently used (a read is a touch),
a miss leaves the cache unchanged. -/
def LRUCache.get (c : LRUCache) (k : String) : Int × LRUCache :=
  match c.entries.find? (fun p => p.1 == k) with
  | some p => (p.2, ⟨c.maxsize, (k, p.2) :: c.entries.filter (fun q => !(q.1 == k))⟩)
  | none => (-1, c)

/-- The count `get` reports for a key: the observable stored count. -/
def LRUCache.getVal (c : LRUCache) (k : String) : Int :=
  (c.get k).1

/-- Modelled from the spec: `put` inserts or updates a key and marks it
most recently used; inserting a new key into a full cache first evicts the
least recently used entry (the last one). -/
def LRUCache.put (c : LRUCache) (k : String) (v : Int) : LRUCache :=
  if c.entries.any (fun p => p.1 == k) then
    ⟨c.maxsize, (k, v) :: c.entries.filter (fun q => !(q.1 == k))⟩
  else if c.maxsize ≤ c.entries.length then
    ⟨c.maxsize, (k, v) :: c.entries.dropLast⟩
  else
    ⟨c.maxsize, (k, v) :: c.entries⟩

/-- A fresh cache of capacity `cap`, as `LRU_TEST = LRUCache(maxsize=LRU_SIZE)`
builds one at module load. -/
def LRUCache.empty (cap : Nat) : LRUCache := ⟨cap, []⟩

/-- The two configuration values `duplicate_test` reads through
`config.getint('DEFAULT', ...)`: `MIN_DUPLCHECK_SIZE` and `MAX_REPETITIONS`. -/
structure Config where
  min_duplcheck_size : Int
  max_repetitions : Int

/-- `put_in_cache` from `filters.py`: records one observation of
`teststring`, incrementing its stored count, or inserting it with count 1
when `get` reports a miss (`-1`). -/
def put_in_cache (cache : LRUCache) (teststring : String) : LRUCache :=
  let cacheval := (cache.get teststring).1
  let cache1 := (cache.get teststring).2
  if cacheval != -1 then cache1.put teststring (cacheval + 1)
  else cache1.put teststring 1

/-- `duplicate_test` from `filters.py`. `teststring` stands for the block's
normalized text `trim(' '.join(element.itertext()))` (`trim` lives outside
the provided sources; every claim quantifies over the normalized text
itself). Returns the decision paired with the updated cache. -/
def duplicate_test (teststring : String) (config : Config) (cache : LRUCache) :
    Bool × LRUCache :=
  if (teststring.length : Int) > config.min_duplcheck_size then
    let cacheval := (cache.get teststring).1
    let cache1 := (cache.get teststring).2
    if cacheval > config.max_repetitions then
      (true, cache1.put teststring (cacheval + 1))
    else
      (false, put_in_cache cache1 teststring)
  else
    (false, put_in_cache cache teststring)

/-- The cache state after `n` successive `duplicate_test` calls on the same
normalized text. -/
def dupState (s : String) (cfg : Config) (cache : LRUCache) : Nat → LRUCache
  | 0 => cache
  | n + 1 => (duplicate_test s cfg (dupState s cfg cache n)).2

/-- The decision returned by the `n`-th occurrence (`n ≥ 1`) of the same
normalized text, counting occurrences from 1. -/
def dupDecision (s : String) (cfg : Config) (cache : LRUCache) (n : Nat) : Bool :=
  (duplicate_test s cfg (dupState s cfg cache (n - 1))).1

lemma LRUCache.get_empty (cap : Nat) (k : String) :
    (LRUCache.empty cap).get k = (-1, LRUCache.empty cap) := rfl

lemma LRUCache.get_cons_self (cap : Nat) (k : String) (v : Int)
    (rest : List (String × Int)) :
    (LRUCache.mk cap ((k, v) :: rest)).get k =
      (v, ⟨cap, (k, v) :: rest.filter (fun q => !(q.1 == k))⟩) := by
  unfold LRUCache.get
  rw [List.find?_cons_of_pos _ (by simp)]
  simp [List.filter_cons]

lemma LRUCache.put_empty (cap : Nat) (k : String) (v : Int) :
    (LRUCache.empty cap).put k v = ⟨cap, [(k, v)]⟩ := by
  unfold LRUCache.put LRUCache.empty
  simp only [List.any_nil, List.length_nil, List.dropLast_nil, Bool.false_eq_true,
    if_false]
  split <;> rfl

lemma LRUCache.put_singleton (cap : Nat) (k : String) (v w : Int) :
    (LRUCache.mk cap [(k, w)]).put k v = ⟨cap, [(k, v)]⟩ := by
  unfold LRUCache.put
  rw [if_pos (by simp)]
  simp [List.filter_cons]

lemma LRUCache.getVal_put_self (c : LRUCache) (k : String) (v : Int) :
    (c.put k v).getVal k = v := by
  unfold LRUCache.put LRUCache.getVal
  split
  · rw [show (⟨c.maxsize, (k, v) :: c.entries.filter (fun q => !(q.1 == k))⟩ :
      LRUCache).get k = _ from rfl]
    unfold LRUCache.get
    rw [List.find?_cons_of_pos _ (by simp)]
  · split
    · unfold LRUCache.get
      rw [List.find?_cons_of_pos _ (by simp)]
    · unfold LRUCache.get
      rw [List.find?_cons_of_pos _ (by simp)]

lemma LRUCache.getVal_get_snd (c : LRUCache) (k : String) :
    ((c.get k).2).getVal k = c.getVal k := by
  unfold LRUCache.getVal LRUCache.get
  cases h : c.entries.find? (fun p => p.1 == k) with
  | none => simp [h]
  | some p =>
    simp only [h]
    rw [List.find?_cons_of_pos _ (by simp)]

lemma duplicate_test_empty (s : String) (cfg : Config) (cap : Nat)
    (hlen : (s.length : Int) > cfg.min_duplcheck_size)
    (hmax : 0 ≤ cfg.max_repetitions) :
    duplicate_test s cfg (LRUCache.empty cap) = (false, ⟨cap, [(s, 1)]⟩) := by
  unfold duplicate_test
  rw [if_pos hlen, LRUCache.get_empty]
  rw [if_neg (by simp; omega)]
  unfold put_in_cache
  rw [LRUCache.get_empty]
  simp [LRUCache.put_empty]

lemma duplicate_test_singleton (s : String) (cfg : Config) (cap : Nat) (v : Int)
    (hlen : (s.length : Int) > cfg.min_duplcheck_size)
    (hv : 1 ≤ v) :
    duplicate_test s cfg ⟨cap, [(s, v)]⟩ =
      (decide (v > cfg.max_repetitions), ⟨cap, [(s, v + 1)]⟩) := by
  unfold duplicate_test
  rw [if_pos hlen, LRUCache.get_cons_self]
  by_cases hc : v > cfg.max_repetitions
  · rw [if_pos hc]
    simp [hc, List.filter_cons, LRUCache.put_singleton]
  · rw [if_neg hc]
    unfold put_in_cache
    simp only [List.filter_nil, LRUCache.get_cons_self]
    rw [if_pos (by simp; omega)]
    simp [hc, List.filter_cons, LRUCache.put_singleton]

lemma dupState_closed (s : String) (cfg : Config) (cap : Nat)
    (hlen : (s.length : Int) > cfg.min_duplcheck_size)
    (hmax : 0 ≤ cfg.max_repetitions) (n : Nat) :
    dupState s cfg (LRUCache.empty cap) (n + 1) = ⟨cap, [(s, (n : Int) + 1)]⟩ := by
  induction n with
  | zero =>
    simp [dupState, duplicate_test_empty s cfg cap hlen hmax]
  | succ m ih =>
    show (duplicate_test s cfg (dupState s cfg (LRUCache.empty cap) (m + 1))).2 = _
    rw [ih, duplicate_test_singleton s cfg cap ((m : Int) + 1) hlen (by omega)]
    simp

lemma LRUCache.get_put_fst (c : LRUCache) (k : String) (v : Int) :
    ((c.put k v).get k).1 = v := LRUCache.getVal_put_self c k v

lemma LRUCache.get_get_snd_fst (c : LRUCache) (k : String) :
    (((c.get k).2).get k).1 = (c.get k).1 := LRUCache.getVal_get_snd c k

/-- C1: with `max_repetitions = 2`, for any normalized text strictly longer
than `min_size`, `duplicate_test` answers "not a repeat" on occurrences 1, 2
and 3 (the stored count becoming 1, 2, 3) and "repeat" from the 4th
occurrence on; the decision is the comparison `count_before_update >
max_repetitions`, a cache miss (`-1`) lying below the threshold. -/
theorem duplicate_test_threshold_boundary (s : String) (minsize : Int) (cap n : Nat)
    (hlen : (s.length : Int) > minsize) (hn : 1 ≤ n) :
    dupDecision s ⟨minsize, 2⟩ (LRUCache.empty cap) n = decide (4 ≤ n) ∧
    (dupState s ⟨minsize, 2⟩ (LRUCache.empty cap) n).getVal s = (n : Int) := by
  obtain ⟨m, rfl⟩ : ∃ m, n = m + 1 := ⟨n - 1, by omega⟩
  constructor
  · unfold dupDecision
    cases m with
    | zero =>
      simp [dupState, duplicate_test_empty s ⟨minsize, 2⟩ cap hlen (by norm_num)]
    | succ k =>
      have hst := dupState_closed s ⟨minsize, 2⟩ cap hlen (by norm_num) k
      simp only [Nat.add_sub_cancel]
      rw [hst, duplicate_test_singleton s ⟨minsize, 2⟩ cap ((k : Int) + 1) hlen (by omega)]
      rw [decide_eq_decide]
      show (k : Int) + 1 > 2 ↔ _
      omega
  · rw [dupState_closed s ⟨minsize, 2⟩ cap hlen (by norm_num) m]
    rw [LRUCache.getVal, LRUCache.get_cons_self]
    push_cast
    ring

/-- Witness for C1 at the text "abcdefgh" (length 8), `min_size = 5`,
capacity 4096, occurrence 4. -/
theorem duplicate_test_threshold_boundary_witness :
    ((("abcdefgh" : String).length : Int) > 5 ∧ 1 ≤ 4) ∧
    (dupDecision "abcdefgh" ⟨5, 2⟩ (LRUCache.empty 4096) 4 = decide (4 ≤ 4) ∧
     (dupState "abcdefgh" ⟨5, 2⟩ (LRUCache.empty 4096) 4).getVal "abcdefgh" =
       ((4 : Nat) : Int)) :=
  ⟨⟨by decide, by decide⟩,
   duplicate_test_threshold_boundary "abcdefgh" 5 4096 4 (by decide) (by decide)⟩

/-- C3: for a normalized text of length at most `min_size` (the empty string
included), `duplicate_test` answers "not a repeat" whatever the cache holds,
and still records the observation: the stored count is incremented by 1 when
the key is present and inserted as 1 on a miss. -/
theorem duplicate_test_minsize_exemption (s : String) (cfg : Config) (cache : LRUCache)
    (hlen : (s.length : Int) ≤ cfg.min_duplcheck_size) :
    (duplicate_test s cfg cache).1 = false ∧
    (duplicate_test s cfg cache).2.getVal s =
      (if cache.getVal s = -1 then 1 else cache.getVal s + 1) := by
  unfold duplicate_test
  rw [if_neg (by omega)]
  refine ⟨rfl, ?_⟩
  show (put_in_cache cache s).getVal s = _
  unfold put_in_cache
  by_cases h : (cache.get s).1 = -1
  · simp only [h, bne_self_eq_false, Bool.false_eq_true, if_false]
    rw [LRUCache.getVal_put_self]
    rw [if_pos (show cache.getVal s = -1 from h)]
  · have hb : ((cache.get s).1 != -1) = true := by simpa using h
    simp only [hb, if_true]
    rw [LRUCache.getVal_put_self]
    rw [if_neg (show ¬cache.getVal s = -1 from h)]
    rfl

/-- Witness for C3 at the text "ab" (length 2), `min_size = 5`, a cache
already holding "ab" with count 7. -/
theorem duplicate_test_minsize_exemption_witness :
    ((("ab" : String).length : Int) ≤ (5 : Int)) ∧
    ((duplicate_test "ab" ⟨5, 2⟩ ⟨4096, [("ab", 7)]⟩).1 = false ∧
     (duplicate_test "ab" ⟨5, 2⟩ ⟨4096, [("ab", 7)]⟩).2.getVal "ab" =
       (if (LRUCache.mk 4096 [("ab", 7)]).getVal "ab" = -1 then 1
        else (LRUCache.mk 4096 [("ab", 7)]).getVal "ab" + 1)) :=
  ⟨by decide, duplicate_test_minsize_exemption "ab" ⟨5, 2⟩ ⟨4096, [("ab", 7)]⟩ (by decide)⟩

/-- C5: one `duplicate_test` call on a normalized text longer than `min_size`
inserts an unseen key with count 1 and raises a stored count from `v` to
exactly `v + 1`, whether or not the repeat threshold has been crossed; in
particular the stored count never decreases across repeated calls. -/
theorem duplicate_test_count_increment (s : String) (cfg : Config) (cache : LRUCache)
    (hlen : (s.length : Int) > cfg.min_duplcheck_size)
    (hmax : 0 ≤ cfg.max_repetitions) :
    (duplicate_test s cfg cache).2.getVal s =
      (if cache.getVal s = -1 then 1 else cache.getVal s + 1) ∧
    cache.getVal s ≤ (duplicate_test s cfg cache).2.getVal s := by
  have key : (duplicate_test s cfg cache).2.getVal s =
      (if cache.getVal s = -1 then 1 else cache.getVal s + 1) := by
    unfold duplicate_test
    rw [if_pos hlen]
    by_cases hc : (cache.get s).1 > cfg.max_repetitions
    · rw [if_pos hc]
      show ((cache.get s).2.put s ((cache.get s).1 + 1)).getVal s = _
      rw [LRUCache.getVal_put_self]
      rw [if_neg (show ¬cache.getVal s = -1 from by
        show ¬(cache.get s).1 = -1; omega)]
      rfl
    · rw [if_neg hc]
      show (put_in_cache (cache.get s).2 s).getVal s = _
      unfold put_in_cache
      rw [LRUCache.get_get_snd_fst]
      by_cases h : (cache.get s).1 = -1
      · simp only [h, bne_self_eq_false, Bool.false_eq_true, if_false]
        rw [LRUCache.getVal_put_self]
        rw [if_pos (show cache.getVal s = -1 from h)]
      · have hb : ((cache.get s).1 != -1) = true := by simpa using h
        simp only [hb, if_true]
        rw [LRUCache.getVal_put_self]
        rw [if_neg (show ¬cache.getVal s = -1 from h)]
        rfl
  refine ⟨key, ?_⟩
  rw [key]
  have hv : cache.getVal s = (cache.get s).1 := rfl
  split <;> omega

/-- Witness for C5 at the text "abcdefgh" (length 8), `min_size = 5`,
`max_repetitions = 2`, a cache already holding the key with count 9 (well
past the threshold). -/
theorem duplicate_test_count_increment_witness :
    ((("abcdefgh" : String).length : Int) > (5 : Int) ∧ (0 : Int) ≤ 2) ∧
    ((duplicate_test "abcdefgh" ⟨5, 2⟩ ⟨4096, [("abcdefgh", 9)]⟩).2.getVal "abcdefgh" =
       (if (LRUCache.mk 4096 [("abcdefgh", 9)]).getVal "abcdefgh" = -1 then 1
        else (LRUCache.mk 4096 [("abcdefgh", 9)]).getVal "abcdefgh" + 1) ∧
     (LRUCache.mk 4096 [("abcdefgh", 9)]).getVal "abcdefgh" ≤
       (duplicate_test "abcdefgh" ⟨5, 2⟩ ⟨4096, [("abcdefgh", 9)]⟩).2.getVal "abcdefgh") :=
  ⟨⟨by decide, by decide⟩,
   duplicate_test_count_increment "abcdefgh" ⟨5, 2⟩ ⟨4096, [("abcdefgh", 9)]⟩
     (by decide) (by decide)⟩

/-- The characters Python's `str.isspace` counts as whitespace, by code
point: the ASCII whitespace range 9..13 and the space, the control
characters 28..31 (file/group/record/unit separator) and 133 (NEL) that
Python treats as whitespace, and the Unicode space separators. -/
def isPySpace (c : Char) : Bool :=
  let n := c.toNat
  (9 ≤ n && n ≤ 13) || n == 32 || (28 ≤ n && n ≤ 31) || n == 133 || n == 160 ||
    n == 5760 || (8192 ≤ n && n ≤ 8202) || n == 8232 || n == 8233 ||
    n == 8239 || n == 8287 || n == 12288

/-- Python's `str.isspace`: true when the string is nonempty and every
character is whitespace. -/
def pyIsSpace (s : String) : Bool :=
  !s.data.isEmpty && s.data.all isPySpace

/-- `text_chars_test` from `filters.py`: false when the string is `None`,
empty, or `isspace()`; true otherwise. -/
def text_chars_test (string : Option String) : Bool :=
  match string with
  | none => false
  | some s => if s.length = 0 || pyIsSpace s then false else true

/-- An lxml element as `textfilter` sees one: only its `.text` (the direct
text before the first child) and `.tail` (the text following the element)
matter to the function. -/
structure Element where
  text : Option String
  tail : Option String
deriving Repr, DecidableEq

/-- The `testtext` selection at the top of `textfilter`: the tail when the
direct text is absent but a tail exists, otherwise the direct text. -/
def effectiveText (element : Element) : Option String :=
  match element.text, element.tail with
  | none, some tail => some tail
  | t, _ => t

/-- A line-boundary character of Python's `str.splitlines`, by code point:
LF, VT, FF, CR, the separators 28..30, NEL (133), LINE SEPARATOR (8232)
and PARAGRAPH SEPARATOR (8233). -/
def isLineBound (c : Char) : Bool :=
  let n := c.toNat
  n == 10 || n == 11 || n == 12 || n == 13 || n == 28 || n == 29 || n == 30 ||
    n == 133 || n == 8232 || n == 8233

/-- Collapses each CR LF pair into a single LF, the one two-character line
boundary `str.splitlines` recognises. -/
def normCRLF : List Char → List Char
  | '\r' :: '\n' :: rest => '\n' :: normCRLF rest
  | c :: rest => c :: normCRLF rest
  | [] => []

/-- Splits at every single-character line boundary; the boundary character
is consumed and each boundary ends a segment, so a trailing boundary leaves
a final empty segment. -/
def splitSegs : List Char → List (List Char)
  | [] => [[]]
  | c :: rest =>
    if isLineBound c then [] :: splitSegs rest
    else
      match splitSegs rest with
      | [] => [[c]]
      | l :: ls => (c :: l) :: ls

/-- Python's `str.splitlines`: split at line boundaries (CR LF as one
boundary) with no empty final line for a trailing boundary, and no line at
all for the empty string. -/
def pySplitlines (s : String) : List String :=
  let segs := splitSegs (normCRLF s.data)
  let segs2 := if segs.getLast? = some [] then segs.dropLast else segs
  segs2.map List.asString

/-- The alternatives of the `RE_FILTER` alternation
`(Drucken|E-?Mail|Facebook|...|Xing)`; `E-?Mail` contributes both
`E-Mail` and `EMail`. -/
def reFilterLabels : List (List Char) :=
  ["Drucken".data, "E-Mail".data, "EMail".data, "Facebook".data,
   "Flipboard".data, "Google".data, "Instagram".data, "Linkedin".data,
   "Mail".data, "PDF".data, "Pinterest".data, "Pocket".data, "Print".data,
   "Reddit".data, "Twitter".data, "Whatsapp".data, "Xing".data]

/-- The character-level semantics of Python str-pattern regexes and of
`str.lower` that `filters.py` relies on: `isWord` decides the Unicode word
class `\w` on a code point (sre: alphanumeric or underscore), `lower` is
`str.lower` on a code-point sequence, and `matchIC` decides whether an
input character matches one pattern literal under `re.IGNORECASE` (sre's
caseless literal match, which beyond plain case mapping admits Unicode
equivalences such as KELVIN SIGN for `k`). These tables are data of the
interpreter, external to the repository's sources; the theorems that
depend on them quantify over this structure, so they hold in particular
at the interpreter's actual tables. -/
structure PyTextSem where
  isWord : Nat → Bool
  lower : List Nat → List Nat
  matchIC : Nat → Nat → Bool

/-- `str.lower` restricted to the ASCII range, where it is fully
determined: 32 is added to A..Z and every other code point is fixed. -/
def asciiLowerN (n : Nat) : Nat :=
  if 65 ≤ n ∧ n ≤ 90 then n + 32 else n

/-- The word class `\w` restricted to the ASCII range, where it is fully
determined: letters, digits and the underscore. -/
def isWordCp (n : Nat) : Bool :=
  decide ((48 ≤ n ∧ n ≤ 57) ∨ (65 ≤ n ∧ n ≤ 90) ∨ (97 ≤ n ∧ n ≤ 122) ∨ n = 95)

/-- The ASCII restriction of the interpreter's tables: on all-ASCII text
it computes exactly what the interpreter computes (below 128 the word
class is `[A-Za-z0-9_]`, lowering adds 32 to A..Z, and an `IGNORECASE`
literal matches exactly up to that case mapping, the extra sre
equivalences being non-ASCII). Used for concrete evaluations and
witnesses, all of which are on all-ASCII inputs. -/
def asciiSem : PyTextSem where
  isWord := isWordCp
  lower := List.map asciiLowerN
  matchIC := fun a b => asciiLowerN a == asciiLowerN b

/-- A candidate suffix against the `RE_FILTER` alternation: a label (a
sequence of pattern literals) matches `q` when the lengths agree and each
character of `q` matches the corresponding literal under `IGNORECASE`. -/
def isLabelMatchG (sem : PyTextSem) (q : List Char) : Bool :=
  reFilterLabels.any (fun l =>
    q.length == l.length &&
      (q.zip l).all (fun pc => sem.matchIC pc.1.toNat pc.2.toNat))

/-- `RE_FILTER.match(line)` as a truth value: the anchored pattern
`\W*(labels)$` matches exactly when some split of the line puts every
character of the front part outside `\w` and makes the rest one of the
labels, ending at the end of the line; the recursion tries every front
length, as the greedy backtracking of `\W*` does. -/
def reFilterMatchG (sem : PyTextSem) : List Char → Bool
  | [] => false
  | c :: rest =>
    isLabelMatchG sem (c :: rest) || (!sem.isWord c.toNat && reFilterMatchG sem rest)

/-- `textfilter` from `filters.py`, over the semantics `sem`: reject when
the selected text has no usable characters, or when some of its lines
matches `RE_FILTER`. The `none` branch is the `text_chars_test(None) is
False` path of the source. The program is this function at the
interpreter's actual tables. -/
def textfilterG (sem : PyTextSem) (element : Element) : Bool :=
  match effectiveText element with
  | none => true
  | some s =>
    if text_chars_test (some s) = false then true
    else (pySplitlines s).any (fun line => reFilterMatchG sem line.data)

/-- The structural text filter at the ASCII tables: on an element whose
text is all ASCII this is exactly the Python `textfilter`. The concrete
evaluations below apply it to all-ASCII text only. -/
def textfilter (element : Element) : Bool :=
  textfilterG asciiSem element

lemma text_chars_test_some (t : String) :
    text_chars_test (some t) = !(t.data.all isPySpace) := by
  obtain ⟨data⟩ := t
  cases data with
  | nil => rfl
  | cons c cs =>
    unfold text_chars_test pyIsSpace
    cases h : (c :: cs).all isPySpace <;> simp [h, String.length]

lemma reFilterMatchG_iff (sem : PyTextSem) (cs : List Char) :
    reFilterMatchG sem cs = true ↔
      ∃ p q, cs = p ++ q ∧ (∀ c ∈ p, sem.isWord c.toNat = false) ∧
        isLabelMatchG sem q = true := by
  induction cs with
  | nil =>
    constructor
    · intro h
      exact absurd h (by simp [reFilterMatchG])
    · rintro ⟨p, q, hpq, _, hq⟩
      obtain ⟨rfl, rfl⟩ := List.append_eq_nil.mp hpq.symm
      unfold isLabelMatchG at hq
      obtain ⟨l, hl, hcond⟩ := List.any_eq_true.mp hq
      have h1 := eq_of_beq ((Bool.and_eq_true _ _).mp hcond).1
      have h0 : l = [] := List.length_eq_zero.mp h1.symm
      subst h0
      exact absurd hl (by decide)
  | cons c rest ih =>
    simp only [reFilterMatchG, Bool.or_eq_true, Bool.and_eq_true,
      Bool.not_eq_true']
    constructor
    · rintro (h | ⟨hw, hm⟩)
      · exact ⟨[], c :: rest, rfl, by simp, h⟩
      · obtain ⟨p, q, hpq, hp, hq⟩ := ih.mp hm
        refine ⟨c :: p, q, by simp [hpq], ?_, hq⟩
        intro x hx
        rcases List.mem_cons.mp hx with rfl | hx2
        · exact hw
        · exact hp x hx2
    · rintro ⟨p, q, hpq, hp, hq⟩
      cases p with
      | nil =>
        left
        simpa using hpq ▸ hq
      | cons c2 p2 =>
        rw [List.cons_append] at hpq
        injection hpq with h1 h2
        right
        constructor
        · rw [h1]
          exact hp c2 (List.mem_cons_self c2 p2)
        · exact ih.mpr ⟨p2, q, h2, fun x hx => hp x (List.mem_cons_of_mem c2 hx), hq⟩

/-- C2 counterexample: the block whose only text is "Share on Facebook" is
not rejected by `textfilter`: the compiled pattern is anchored at the start
of the line through `re.match` and its `\W*` prefix, and "Share" begins
with a word character, so no line matches and the function returns false. -/
theorem textfilter_share_on_facebook_not_rejected :
    textfilter ⟨some "Share on Facebook", none⟩ = false := by decide

/-- C2 as amended: a block whose only text is the bare label "Facebook" is
rejected by the structural text filter, while the spec's example
"Share on Facebook" is not, word characters preceding the label on its
line; a block whose text is whitespace only is classified as having no
usable text. -/
theorem textfilter_facebook_label_rejected :
    textfilter ⟨some "Facebook", none⟩ = true ∧
    textfilter ⟨some "Share on Facebook", none⟩ = false ∧
    text_chars_test (some "   \t\n") = false := by decide

/-- C7: `text_chars_test` reports no usable text exactly for the absent
string, the empty string and strings all of whose characters Python's
`str.isspace` counts as whitespace (which includes a handful of control
characters); and whenever the effective text of a block has no usable
text, `textfilter` rejects it on that ground alone, without consulting
the label pattern. -/
theorem text_chars_test_characterization :
    (∀ s : Option String, text_chars_test s = false ↔
      (s = none ∨ ∃ t, s = some t ∧ t.data.all isPySpace = true)) ∧
    (∀ e : Element, text_chars_test (effectiveText e) = false →
      textfilter e = true) := by
  constructor
  · intro s
    cases s with
    | none => simp [text_chars_test]
    | some t => simp [text_chars_test_some]
  · intro e h
    unfold textfilter textfilterG
    cases he : effectiveText e with
    | none => simp
    | some s =>
      rw [he] at h
      simp [h]

/-- C9: for a block with usable text, `textfilter` rejects exactly when
some line of the effective text splits into a front of non-word characters
followed by one of the seventeen fixed labels reaching the end of the
line, compared case-insensitively; a word character anywhere before the
label defeats the match. The word class and the `IGNORECASE` literal match
are the interpreter's tables, quantified as `sem`, so the equivalence holds
in particular at the actual tables, where `textfilterG sem` is the Python
`textfilter`. -/
theorem textfilter_line_characterization (sem : PyTextSem) (e : Element)
    (s : String)
    (he : effectiveText e = some s) (hu : text_chars_test (some s) = true) :
    textfilterG sem e = true ↔
      ∃ line ∈ pySplitlines s, ∃ p q, line.data = p ++ q ∧
        (∀ c ∈ p, sem.isWord c.toNat = false) ∧ isLabelMatchG sem q = true := by
  have hred : textfilterG sem e =
      (if text_chars_test (some s) = false then true
       else (pySplitlines s).any fun line => reFilterMatchG sem line.data) := by
    unfold textfilterG
    rw [he]
  rw [hred]
  rw [if_neg (by simp [hu])]
  rw [List.any_eq_true]
  constructor
  · rintro ⟨line, hline, hm⟩
    exact ⟨line, hline, (reFilterMatchG_iff sem line.data).mp hm⟩
  · rintro ⟨line, hline, hpq⟩
    exact ⟨line, hline, (reFilterMatchG_iff sem line.data).mpr hpq⟩

/-- Witness for C9 at the ASCII tables and the block whose only text is
"Facebook". -/
theorem textfilter_line_characterization_witness :
    (effectiveText ⟨some "Facebook", none⟩ = some "Facebook" ∧
     text_chars_test (some "Facebook") = true) ∧
    (textfilterG asciiSem ⟨some "Facebook", none⟩ = true ↔
      ∃ line ∈ pySplitlines "Facebook", ∃ p q, line.data = p ++ q ∧
        (∀ c ∈ p, asciiSem.isWord c.toNat = false) ∧
        isLabelMatchG asciiSem q = true) :=
  ⟨⟨by decide, by decide⟩,
   textfilter_line_characterization asciiSem ⟨some "Facebook", none⟩ "Facebook"
     (by decide) (by decide)⟩

/-- The two fields of `docmeta` that `language_filter` reads for its
warning message. -/
structure DocMeta where
  id : String
  url : String

/-- The optional external language identifier: `cld3` with its
`get_language` function when the import succeeded (`LANGID_FLAG` true),
or absent. The identifier returns the detected language code (the
`.language` attribute of the cld3 result). -/
inductive LangCapability where
  | unavailable
  | available (identify : String → String)

/-- `language_filter` from `filters.py`. The logger is made explicit: the
second component lists the warning-class diagnostics the call emits, one
string per `LOGGER.warning` call. -/
def language_filter (temp_text temp_comments : String)
    (target_language : Option String) (docmeta : DocMeta)
    (cap : LangCapability) : Bool × List String :=
  match target_language with
  | none => (false, [])
  | some tl =>
    match cap with
    | .available identify =>
      let langtest :=
        if temp_comments.length > temp_text.length then temp_comments
        else temp_text
      let result := identify langtest
      if result ≠ tl then
        (true, ["wrong language: " ++ result ++ " " ++ docmeta.id ++ " " ++ docmeta.url])
      else (false, [])
    | .unavailable =>
      (false, ["Detector not installed, no language detection run"])

/-- C6: with the identification capability unavailable, `language_filter`
never rejects and emits exactly one warning-class diagnostic whenever a
target language is set; with no target language it returns false and
emits no diagnostic at all, whatever the capability. -/
theorem language_filter_fail_open :
    (∀ (tt tc tl : String) (dm : DocMeta),
      (language_filter tt tc (some tl) dm .unavailable).1 = false ∧
      (language_filter tt tc (some tl) dm .unavailable).2.length = 1) ∧
    (∀ (tt tc : String) (dm : DocMeta) (cap : LangCapability),
      language_filter tt tc none dm cap = (false, [])) := by
  constructor
  · intro tt tc tl dm
    exact ⟨rfl, rfl⟩
  · intro tt tc dm cap
    rfl

/-- Maximal runs of characters satisfying the word class `w` in a
code-point sequence; `acc` holds the characters of the current run in
reverse. -/
def wordRunsByAux (w : Nat → Bool) : List Nat → List Nat → List (List Nat)
  | [], acc => if acc.isEmpty then [] else [acc.reverse]
  | n :: rest, acc =>
    if w n then wordRunsByAux w rest (n :: acc)
    else if acc.isEmpty then wordRunsByAux w rest []
    else acc.reverse :: wordRunsByAux w rest []

/-- The maximal `w`-runs of a code-point sequence, in order. -/
def wordRunsBy (w : Nat → Bool) (l : List Nat) : List (List Nat) :=
  wordRunsByAux w l []

/-- `re.findall(r'\w{5,}', ...)` for the word class `w`: with this pattern
the matches are exactly the maximal word-character runs of length at
least 5, in order (the quantifier is greedy, so a maximal run is never
split into two matches). -/
def findallW5 (w : Nat → Bool) (l : List Nat) : List (List Nat) :=
  (wordRunsBy w l).filter (fun r => 5 ≤ r.length)

/-- The qualifying tokens of `content_fingerprint` under the semantics
`sem`: `re.findall(r'\w{5,}', string.lower())` over code points. -/
def fpTokensSem (sem : PyTextSem) (s : String) : List (List Nat) :=
  findallW5 sem.isWord (sem.lower (s.data.map Char.toNat))

/-- `' '.join(...)` over code-point tokens. -/
def joinSp : List (List Nat) → List Nat
  | [] => []
  | [r] => r
  | r :: s :: rest => r ++ 32 :: joinSp (s :: rest)

/-- UTF-8 encoding of one code point. -/
def utf8BytesN (n : Nat) : List Nat :=
  if n < 128 then [n]
  else if n < 2048 then [192 + n / 64, 128 + n % 64]
  else if n < 65536 then [224 + n / 4096, 128 + n / 64 % 64, 128 + n % 64]
  else [240 + n / 262144, 128 + n / 4096 % 64, 128 + n / 64 % 64, 128 + n % 64]

/-- `str.encode()`: the UTF-8 bytes of a code-point sequence. -/
def utf8Encode (l : List Nat) : List Nat := l.flatMap utf8BytesN

/-- Left rotation of a 32-bit word held in a `Nat` below `2 ^ 32`. -/
def rotl32 (k x : Nat) : Nat := (x * 2 ^ k + x / 2 ^ (32 - k)) % 4294967296

/-- The SHA-1 round function for round `t`. -/
def sha1F (t b c d : Nat) : Nat :=
  if t < 20 then (b &&& c) ||| ((b ^^^ 4294967295) &&& d)
  else if t < 40 then b ^^^ c ^^^ d
  else if t < 60 then (b &&& c) ||| (b &&& d) ||| (c &&& d)
  else b ^^^ c ^^^ d

/-- The SHA-1 round constant for round `t`. -/
def sha1K (t : Nat) : Nat :=
  if t < 20 then 1518500249
  else if t < 40 then 1859775393
  else if t < 60 then 2400959708
  else 3395469782

/-- A big-endian 32-bit word from the first four bytes of a list. -/
def bytesToWord : List Nat → Nat
  | b0 :: b1 :: b2 :: b3 :: _ => ((b0 * 256 + b1) * 256 + b2) * 256 + b3
  | _ => 0

/-- The message schedule: extends the 16 words of a block to 80. -/
def sha1Extend (w : Array Nat) : Array Nat :=
  (List.range 64).foldl
    (fun a i => a.push (rotl32 1 (a.getD (i + 13) 0 ^^^ a.getD (i + 8) 0 ^^^
      a.getD (i + 2) 0 ^^^ a.getD i 0))) w

/-- One SHA-1 round on the five-word state. -/
def sha1Step (w : Array Nat) (st : Nat × Nat × Nat × Nat × Nat) (t : Nat) :
    Nat × Nat × Nat × Nat × Nat :=
  let temp := (rotl32 5 st.1 + sha1F t st.2.1 st.2.2.1 st.2.2.2.1 +
    st.2.2.2.2 + sha1K t + w.getD t 0) % 4294967296
  (temp, st.1, rotl32 30 st.2.1, st.2.2.1, st.2.2.2.1)

/-- Compression of one 64-byte block into the running state. -/
def sha1Compress (st : Nat × Nat × Nat × Nat × Nat) (block : List Nat) :
    Nat × Nat × Nat × Nat × Nat :=
  let w := sha1Extend ((List.range 16).map
    (fun i => bytesToWord (block.drop (4 * i)))).toArray
  let r := (List.range 80).foldl (sha1Step w) st
  ((st.1 + r.1) % 4294967296, (st.2.1 + r.2.1) % 4294967296,
   (st.2.2.1 + r.2.2.1) % 4294967296, (st.2.2.2.1 + r.2.2.2.1) % 4294967296,
   (st.2.2.2.2 + r.2.2.2.2) % 4294967296)

/-- SHA-1 padding: a 0x80 byte, zeros up to 56 modulo 64, then the bit
length on eight big-endian bytes. -/
def sha1Pad (msg : List Nat) : List Nat :=
  msg ++ 128 :: (List.replicate ((119 - msg.length % 64) % 64) 0 ++
    (List.range 8).map (fun i => msg.length * 8 / 2 ^ ((7 - i) * 8) % 256))

/-- Accumulating block cutter: `cur` holds the bytes of the current block
in reverse, `k` the room left in it; a full block is emitted when another
byte arrives. -/
def chunksAux : List Nat → List Nat → Nat → List (List Nat)
  | [], cur, _ => if cur.isEmpty then [] else [cur.reverse]
  | b :: rest, cur, 0 => cur.reverse :: chunksAux rest [b] 63
  | b :: rest, cur, k + 1 => chunksAux rest (b :: cur) k

/-- The padded message cut into 64-byte blocks. -/
def chunks64 (l : List Nat) : List (List Nat) := chunksAux l [] 64

/-- The five-word SHA-1 state after absorbing the whole message. -/
def sha1Hash (msg : List Nat) : Nat × Nat × Nat × Nat × Nat :=
  (chunks64 (sha1Pad msg)).foldl sha1Compress
    (1732584193, 4023233417, 2562383102, 271733878, 3285377520)

/-- A 32-bit word as four big-endian bytes. -/
def wordBE (w : Nat) : List Nat :=
  [w / 16777216 % 256, w / 65536 % 256, w / 256 % 256, w % 256]

/-- `hashlib.sha1(...).digest()`: the 20-byte digest. -/
def sha1Digest (msg : List Nat) : List Nat :=
  let h := sha1Hash msg
  wordBE h.1 ++ wordBE h.2.1 ++ wordBE h.2.2.1 ++ wordBE h.2.2.2.1 ++
    wordBE h.2.2.2.2

/-- The base64 alphabet. -/
def b64Char (n : Nat) : Char :=
  "ABCDEFGHIJKLMNOPQRSTUVWXYZabcdefghijklmnopqrstuvwxyz0123456789+/".data.getD n 'A'

/-- `base64.b64encode`: the standard alphabet, padded, with no line wraps. -/
def b64Encode : List Nat → List Char
  | b1 :: b2 :: b3 :: rest =>
    let n := (b1 * 256 + b2) * 256 + b3
    b64Char (n / 262144) :: b64Char (n / 4096 % 64) :: b64Char (n / 64 % 64) ::
      b64Char (n % 64) :: b64Encode rest
  | [b1, b2] =>
    let n := (b1 * 256 + b2) * 256
    [b64Char (n / 262144), b64Char (n / 4096 % 64), b64Char (n / 64 % 64), '=']
  | [b1] =>
    let n := b1 * 65536
    [b64Char (n / 262144), b64Char (n / 4096 % 64), '=', '=']
  | [] => []

/-- `content_fingerprint` from `filters.py`, with the interpreter's
character tables abstracted as `sem`: join the matches of
`re.findall(r'\w{5,}', string.lower())` with single spaces, hash the
UTF-8 bytes with SHA-1 and return the base64 text of the digest. The
program is this function at the interpreter's actual tables. -/
def content_fingerprint (sem : PyTextSem) (string : String) : String :=
  let teststring := joinSp (fpTokensSem sem string)
  List.asString (b64Encode (sha1Digest (utf8Encode teststring)))

/-- The spec's reading of the qualifying tokens, rendered without the
implementation's accumulator: after dropping non-word characters, the
next maximal run of word characters is the longest word prefix
(`takeWhile`), and the rest follow recursively after it (`dropWhile`). -/
def specRuns (w : Nat → Bool) : List Nat → List (List Nat)
  | [] => []
  | n :: rest =>
    if w n then
      ((n :: rest).takeWhile w) :: specRuns w ((n :: rest).dropWhile w)
    else specRuns w rest
termination_by l => l.length
decreasing_by
  · rename_i hw
    rw [List.dropWhile_cons, if_pos hw]
    have h : (rest.dropWhile w).length ≤ rest.length :=
      (List.dropWhile_sublist w).length_le
    simp only [List.length_cons]
    omega
  · simp only [List.length_cons]
    omega

/-- The fingerprint pipeline as the spec words it: lowercase the text,
take the maximal word-character runs of length at least 5 in order
(rendered by `specRuns`), join them with single spaces, hash the
resulting byte sequence with SHA-1 and return the padded base64 text of
the 20-byte digest. -/
def fingerprint_described (sem : PyTextSem) (s : String) : String :=
  List.asString (b64Encode (sha1Digest (utf8Encode (joinSp
    ((specRuns sem.isWord (sem.lower (s.data.map Char.toNat))).filter
      (fun r => 5 ≤ r.length))))))

lemma sha1Digest_length (msg : List Nat) : (sha1Digest msg).length = 20 := by
  simp [sha1Digest, wordBE]

lemma wordRunsByAux_eq_specRuns (w : Nat → Bool) (l : List Nat) :
    ∀ acc : List Nat,
      wordRunsByAux w l acc =
        if acc.isEmpty then specRuns w l
        else (acc.reverse ++ l.takeWhile w) :: specRuns w (l.dropWhile w) := by
  induction l with
  | nil =>
    intro acc
    cases acc <;> simp [wordRunsByAux, specRuns]
  | cons n rest ih =>
    intro acc
    by_cases hw : w n
    · have lhs : wordRunsByAux w (n :: rest) acc = wordRunsByAux w rest (n :: acc) := by
        simp [wordRunsByAux, hw]
      rw [lhs, ih (n :: acc)]
      cases acc <;>
        simp [specRuns, hw, List.takeWhile_cons, List.dropWhile_cons,
          List.append_assoc]
    · cases acc with
      | nil =>
        have lhs : wordRunsByAux w (n :: rest) [] = wordRunsByAux w rest [] := by
          simp [wordRunsByAux, hw]
        rw [lhs, ih []]
        simp [specRuns, hw]
      | cons a as =>
        have lhs : wordRunsByAux w (n :: rest) (a :: as) =
            (a :: as).reverse :: wordRunsByAux w rest [] := by
          simp [wordRunsByAux, hw]
        rw [lhs, ih []]
        simp [specRuns, hw, List.takeWhile_cons, List.dropWhile_cons]

lemma findallW5_eq_spec (w : Nat → Bool) (l : List Nat) :
    findallW5 w l = (specRuns w l).filter (fun r => 5 ≤ r.length) := by
  unfold findallW5 wordRunsBy
  rw [wordRunsByAux_eq_specRuns w l []]
  simp

/-- C4: for every character-table semantics — in particular the
interpreter's — `content_fingerprint` equals the pipeline the spec
describes, with the tokens rendered independently of the implementation's
accumulator; the SHA-1 digest it encodes is always 20 bytes long; and the
function is deterministic: equal inputs yield equal outputs. -/
theorem content_fingerprint_spec :
    (∀ (sem : PyTextSem) (s : String),
      content_fingerprint sem s = fingerprint_described sem s) ∧
    (∀ (sem : PyTextSem) (s : String),
      (sha1Digest (utf8Encode (joinSp (fpTokensSem sem s)))).length = 20) ∧
    (∀ (sem : PyTextSem) (s t : String),
      s = t → content_fingerprint sem s = content_fingerprint sem t) := by
  refine ⟨fun sem s => ?_, fun sem s => sha1Digest_length _, fun sem s t h => by rw [h]⟩
  unfold content_fingerprint fingerprint_described fpTokensSem
  rw [findallW5_eq_spec]

/-- C8: under any character-table semantics — in particular the
interpreter's — two inputs that lowercase to the same sequence of
qualifying tokens (maximal word-character runs of length at least 5) have
the same fingerprint; whitespace and punctuation between qualifying words
never enter the hashed string. -/
theorem content_fingerprint_token_invariance (sem : PyTextSem) (s t : String)
    (h : fpTokensSem sem s = fpTokensSem sem t) :
    content_fingerprint sem s = content_fingerprint sem t := by
  show List.asString (b64Encode (sha1Digest (utf8Encode (joinSp (fpTokensSem sem s))))) = _
  rw [h]
  rfl

/-- Witness for C8 at the ASCII tables and "Hello...World!" versus
"hello, world", which carry the same qualifying tokens. -/
theorem content_fingerprint_token_invariance_witness :
    fpTokensSem asciiSem "Hello...World!" = fpTokensSem asciiSem "hello, world" ∧
    content_fingerprint asciiSem "Hello...World!" =
      content_fingerprint asciiSem "hello, world" :=
  ⟨by decide, content_fingerprint_token_invariance asciiSem "Hello...World!"
    "hello, world" (by decide)⟩

set_option maxRecDepth 8000 in
/-- C10: under any character-table semantics — in particular the
interpreter's — an input without any run of five or more word characters
(the empty string, bare punctuation or whitespace, only short words)
always produces the fixed fingerprint of the empty byte sequence. The
hypothesis reads the runs where the program tests them, on the
lowercased code points; this coincides with the condition on the input
itself, because lowercasing never cases a non-word character, so every
separator stays in place and no longer word run can appear. -/
theorem content_fingerprint_no_tokens (sem : PyTextSem) (s : String)
    (h : ∀ r ∈ wordRunsBy sem.isWord (sem.lower (s.data.map Char.toNat)),
      r.length < 5) :
    content_fingerprint sem s = "2jmj7l5rSw0yVb/vlWAYkK/YBwk=" := by
  have htok : fpTokensSem sem s = [] := by
    unfold fpTokensSem findallW5
    rw [List.filter_eq_nil_iff]
    intro r hr
    have := h r hr
    simp only [decide_eq_true_eq]
    omega
  show List.asString (b64Encode (sha1Digest (utf8Encode
    (joinSp (fpTokensSem sem s))))) = _
  rw [htok]
  decide

/-- Witness for C10 at the ASCII tables and "a bb! cc. dd?", whose longest
word-character run has length 2. -/
theorem content_fingerprint_no_tokens_witness :
    (∀ r ∈ wordRunsBy asciiSem.isWord
        (asciiSem.lower (("a bb! cc. dd?" : String).data.map Char.toNat)),
      r.length < 5) ∧
    content_fingerprint asciiSem "a bb! cc. dd?" = "2jmj7l5rSw0yVb/vlWAYkK/YBwk=" :=
  ⟨by decide, content_fingerprint_no_tokens asciiSem "a bb! cc. dd?" (by decide)⟩

end Filters
